import Mathlib

/-!
Verification of the reconai multi-stream session recording pipeline.

The definitions below are a shallow embedding of the Python source:
* `core/session_manager.py` — `SessionManager` (frame sampler, metric
  accumulator, per-frame recording, close-time aggregation, video writers);
* `core/angle_calculator.py` — `calculate_angle`;
* `core/utils.py` — `safe_round`;
* `ui/components/sessions.py` — `Processor.recv` control flow and the
  metric-name map built by `_extract_joint_data`.

Python floats that flow through the metric pipeline are modelled by `PF`
(finite rationals plus `nan` and the two infinities); real-valued geometry in
the angle calculator is modelled over `ℝ`, with `nan` coordinates modelled
explicitly since real numbers have no NaN.
-/

namespace ReconAI

/-- A Python float value as it flows through the metric pipeline:
NaN, +inf, -inf, or a finite value (modelled as a rational). -/
inductive PF where
  | nan : PF
  | pinf : PF
  | ninf : PF
  | fin (q : ℚ) : PF
deriving DecidableEq, Repr

/-- `math.isnan` on a Python float. -/
def PF.isNaN : PF → Bool
  | .nan => true
  | _ => false

/-- Python `<` on floats. Any comparison involving NaN is `False`. -/
def PF.lt : PF → PF → Bool
  | .nan, _ => false
  | _, .nan => false
  | .ninf, .ninf => false
  | .ninf, _ => true
  | .pinf, _ => false
  | .fin _, .ninf => false
  | .fin a, .fin b => decide (a < b)
  | .fin _, .pinf => true

/-- Python float subtraction (`mx - mn` in `close_session`):
`inf - inf = nan`, `inf - finite = inf`, etc. -/
def PF.sub : PF → PF → PF
  | .nan, _ => .nan
  | _, .nan => .nan
  | .pinf, .pinf => .nan
  | .pinf, _ => .pinf
  | .ninf, .ninf => .nan
  | .ninf, _ => .ninf
  | .fin _, .pinf => .ninf
  | .fin _, .ninf => .pinf
  | .fin a, .fin b => .fin (a - b)

/-- Python `max(xs)` over a non-empty list (first element is the initial
candidate, later elements replace it when strictly greater).
`max([])` raises in Python; the `[]` case is junk and is guarded at
every call site, exactly as in the source. -/
def maxPF : List PF → PF
  | [] => .nan
  | x :: xs => xs.foldl (fun acc v => if PF.lt acc v then v else acc) x

/-- Python `min(xs)` over a non-empty list. -/
def minPF : List PF → PF
  | [] => .nan
  | x :: xs => xs.foldl (fun acc v => if PF.lt v acc then v else acc) x

/-- `t` is an initial segment of `s` (on character lists). -/
def startsWithChars : List Char → List Char → Bool
  | [], _ => true
  | _ :: _, [] => false
  | a :: as, b :: bs => a = b && startsWithChars as bs

/-- `t` occurs as a contiguous substring of `s` (on character lists). -/
def hasSubChars (t : List Char) : List Char → Bool
  | [] => startsWithChars t []
  | b :: bs => startsWithChars t (b :: bs) || hasSubChars t bs

/-- `t` is a final segment of `s` (on character lists). -/
def endsWithChars (t s : List Char) : Bool := startsWithChars t.reverse s.reverse

/-- `"sub" in s` — Python substring containment on metric names. -/
def strContains (s sub : String) : Bool := hasSubChars sub.toList s.toList

/-- The key filter of `SessionManager._accumulate_metrics`:
`"angle" in key or "symmetry" in key`. -/
def isMetricKey (k : String) : Bool :=
  strContains k "angle" || strContains k "symmetry"

/-- `self.metric_records`: a Python dict `str -> list[float]` with insertion
order, modelled as an association list. -/
abbrev MetricRecords := List (String × List PF)

/-- `self.metric_records.setdefault(key, []).append(fval)`. -/
def recAppend (recs : MetricRecords) (k : String) (v : PF) : MetricRecords :=
  match recs with
  | [] => [(k, [v])]
  | (k', vs) :: rest =>
      if k' = k then (k', vs ++ [v]) :: rest else (k', vs) :: recAppend rest k v

/-- Dict lookup returning the stored series (empty when absent). -/
def getSeries (recs : MetricRecords) (k : String) : List PF :=
  match recs with
  | [] => []
  | (k', vs) :: rest => if k' = k then vs else getSeries rest k

/-- One iteration of the loop of `SessionManager._accumulate_metrics`:
append `val` to the series of `key` when the key mentions angle/symmetry,
the value is not `None`, and `float(val)` is not NaN. -/
def accumulateStep (recs : MetricRecords) (kv : String × Option PF) : MetricRecords :=
  match kv.2 with
  | none => recs
  | some v => if isMetricKey kv.1 && !v.isNaN then recAppend recs kv.1 v else recs

/-- `SessionManager._accumulate_metrics(joints)` acting on `metric_records`. -/
def accumulateMetrics (recs : MetricRecords) (joints : List (String × Option PF)) :
    MetricRecords :=
  joints.foldl accumulateStep recs

/-- The mutable `SessionManager` state that the recording path touches. -/
structure SessionState where
  samplingRate : ℚ
  lastSampleTime : ℚ
  sessionId : Option Nat
  metricRecords : MetricRecords
  framesRecordedToDb : Nat
deriving DecidableEq, Repr

/-- `SessionManager.should_record_frame`. `elapsed` is the value of
`self.elapsed_time()` at the moment of the call (wall clock, passed
explicitly in the embedding). Returns the decision and the updated state
(`last_sample_time` is overwritten only on a positive decision). -/
def should_record_frame (st : SessionState) (elapsed : ℚ) : Bool × SessionState :=
  if st.samplingRate ≤ 0 then (true, st)
  else if st.samplingRate ≤ elapsed - st.lastSampleTime then
    (true, { st with lastSampleTime := elapsed })
  else (false, st)

/-- One call to the storage collaborator (`db.crud`). -/
inductive StorageCall where
  | addMovementData (sid : Nat) (frameIndex : ℤ) (timeSeconds : ℚ)
      (joints : List (String × Option PF))
  | addMetric (sid : Nat) (name : String) (value : PF) (unit : String)
deriving DecidableEq, Repr

/-- `SessionManager.record_frame_data(frame_index, elapsed_time, joints)`.

`elapsedNow` is the wall-clock `elapsed_time()` sampled inside
`should_record_frame` (distinct from the `elapsed_time` argument the caller
passes for the DB row). `dbOk` tells whether `crud.add_movement_data`
succeeds; when it raises, the exception is caught and logged.
Returns (outcome, new state, storage calls attempted); a `RuntimeError`
(session not started) is `Except.error` with the state untouched. -/
def record_frame_data (st : SessionState) (frameIndex : ℤ) (elapsedArg : ℚ)
    (elapsedNow : ℚ) (joints : List (String × Option PF)) (dbOk : Bool) :
    Except Unit Unit × SessionState × List StorageCall :=
  match st.sessionId with
  | none => (Except.error (), st, [])
  | some sid =>
      let res := should_record_frame st elapsedNow
      if !res.1 then
        -- sampler said skip: accumulate metrics but do NOT store to DB
        (Except.ok (),
         { res.2 with metricRecords := accumulateMetrics res.2.metricRecords joints },
         [])
      else
        let st2 := if dbOk then
          { res.2 with framesRecordedToDb := res.2.framesRecordedToDb + 1 }
          else res.2
        (Except.ok (),
         { st2 with metricRecords := accumulateMetrics st2.metricRecords joints },
         [StorageCall.addMovementData sid frameIndex elapsedArg joints])

/-- The list-sanitising pass of `close_session`: keep the values whose
`float(v)` is not NaN. -/
def cleanVals (vs : List PF) : List PF := vs.filter (fun v => !v.isNaN)

/-- Unit classification of `close_session`:
`if "symmetry" in metric_name and "_y" in metric_name: unit = "pixels"`. -/
def unitFor (name : String) : String :=
  if strContains name "symmetry" && strContains name "_y" then "pixels" else "degrees"

/-- The per-metric body of the aggregation loop of `close_session`:
skip empty/dirty series, compute max/min/range, classify the unit, then run
`add_metric` for `_max`, `_min`, `_range` inside a single `try`.
`ok r` tells whether `crud.add_metric` succeeds for the row named `r`;
the rows returned are those persisted before the first failure. -/
def metricGroupRows (ok : String → Bool) (sid : Nat) (name : String)
    (values : List PF) : List StorageCall :=
  if values = [] then []
  else
    let clean := cleanVals values
    if clean = [] then []
    else
      let mx := maxPF clean
      let mn := minPF clean
      let rg := PF.sub mx mn
      let u := unitFor name
      if ok (name ++ "_max") then
        StorageCall.addMetric sid (name ++ "_max") mx u ::
          (if ok (name ++ "_min") then
            StorageCall.addMetric sid (name ++ "_min") mn u ::
              (if ok (name ++ "_range") then
                [StorageCall.addMetric sid (name ++ "_range") rg u]
              else [])
          else [])
      else []

/-- The aggregation loop of `close_session`: each metric name's three
statistics attempted in order; a failure inside one name's `try` block is
caught and the loop continues with the next name. -/
def closeMetrics (ok : String → Bool) (sid : Nat) (recs : MetricRecords) :
    List StorageCall :=
  match recs with
  | [] => []
  | (name, values) :: rest => metricGroupRows ok sid name values ++ closeMetrics ok sid rest

/-- `SessionManager.close_session` metric-persistence part (the encoder
shutdown that precedes it performs no storage calls). Python's
`if not self.session_id` is falsy for both `None` and `0`. -/
def close_session (ok : String → Bool) (st : SessionState) : List StorageCall :=
  match st.sessionId with
  | none => []
  | some sid =>
      if sid = 0 then []
      else if st.metricRecords = [] then []
      else closeMetrics ok sid st.metricRecords

/-! ### Angle calculator (`core/angle_calculator.py`, `core/utils.py`) -/

/-- One float coordinate of a 2D point: NaN or a finite value. -/
inductive Coord where
  | nan : Coord
  | val (q : ℚ) : Coord
deriving DecidableEq, Repr

/-- `math.isnan` on a coordinate. -/
def Coord.isNaN : Coord → Bool
  | .nan => true
  | _ => false

/-- The numeric content of a finite coordinate (junk on NaN; every use is
guarded by the NaN check, as in the source). -/
def Coord.q : Coord → ℚ
  | .nan => 0
  | .val q => q

/-- A 2D input point of `calculate_angle`. -/
structure Pt where
  x : Coord
  y : Coord
deriving DecidableEq, Repr

/-- `np.isnan(p).any()`. -/
def Pt.hasNaN (p : Pt) : Bool := p.x.isNaN || p.y.isNaN

/-- A point with finite coordinates. -/
def mkPt (x y : ℚ) : Pt := ⟨Coord.val x, Coord.val y⟩

/-- Componentwise `p - q` (e.g. `ba = a - b`). -/
def vsub (p q : Pt) : ℚ × ℚ := (p.x.q - q.x.q, p.y.q - q.y.q)

/-- `np.dot(u, v)`. -/
def dotQ (u v : ℚ × ℚ) : ℚ := u.1 * v.1 + u.2 * v.2

/-- `np.linalg.norm(u)` — Euclidean norm, a real number. -/
noncomputable def normR (u : ℚ × ℚ) : ℝ :=
  Real.sqrt ((u.1 : ℝ) ^ 2 + (u.2 : ℝ) ^ 2)

/-- `np.clip(x, -1.0, 1.0)`. -/
noncomputable def clip (x : ℝ) : ℝ := max (-1) (min 1 x)

/-- `np.degrees(np.arccos(clip x))`. -/
noncomputable def angleFromCos (x : ℝ) : ℝ :=
  Real.arccos (clip x) * 180 / Real.pi

/-- Round to 2 decimal places (`round(float(value), 2)`). The embedding uses
the mathematical round; no property proved here depends on tie-breaking. -/
noncomputable def roundTo2 (x : ℝ) : ℝ := (round (x * 100) : ℤ) / 100

/-- `core/utils.py::safe_round` at `decimals=2`. The `isnan`/`isinf` branches
of the source cannot fire in the real-number embedding (a real is never
NaN/Inf), so the only cases are `None ↦ None` and a finite value ↦ its
rounding. -/
noncomputable def safe_round : Option ℝ → Option ℝ
  | none => none
  | some v => some (roundTo2 v)

open scoped Classical in
/-- `core/angle_calculator.py::calculate_angle`.

Mirrors the source: `None` inputs and NaN coordinates raise a `ValueError`
caught by the enclosing `except`, producing `None`; a zero-length `ba` or
`bc` returns `None`; otherwise the cosine is clipped to `[-1, 1]`,
`arccos` converts it to degrees, and the absolute value is rounded to two
decimals via `safe_round`. -/
noncomputable def calculate_angle (a b c : Option Pt) : Option ℝ :=
  match a, b, c with
  | some pa, some pb, some pc =>
      if pa.hasNaN || pb.hasNaN || pc.hasNaN then none
      else
        if normR (vsub pa pb) = 0 ∨ normR (vsub pc pb) = 0 then none
        else
          safe_round (some |angleFromCos
            ((dotQ (vsub pa pb) (vsub pc pb) : ℝ) /
              (normR (vsub pa pb) * normR (vsub pc pb)))|)
  | _, _, _ => none

/-! ### Video-writer selection (`_create_ffmpeg_writer`, `start_session`,
`write_video_frames`) for one variant -/

/-- Outcome of `subprocess.Popen(['ffmpeg', ...])`. -/
inductive SpawnResult where
  | ok : SpawnResult
  | binaryMissing : SpawnResult  -- FileNotFoundError
  | otherError : SpawnResult
deriving DecidableEq, Repr

/-- `SessionManager._create_ffmpeg_writer`: returns the process handle, or
`None` when the spawn raises (`FileNotFoundError` → "FFmpeg no está
instalado, usando OpenCV VideoWriter" is logged; any other exception is
logged as an error). No OpenCV writer is constructed here. -/
def createFfmpegWriter : SpawnResult → Option Unit
  | .ok => some ()
  | .binaryMissing => none
  | .otherError => none

/-- The writer handles held for one active variant after `start_session`. -/
structure VariantWriters where
  ffmpegProc : Option Unit
  cvWriter : Option Unit
deriving DecidableEq, Repr

/-- `start_session` writer setup for one active variant: with
`use_ffmpeg=True` only the FFmpeg branch runs (the OpenCV branch is the
`else` of `if self.use_ffmpeg`); with `use_ffmpeg=False` an OpenCV
`VideoWriter` object is constructed and held (the object is truthy even if
it failed to open, which the source only logs). -/
def startVariantWriters (useFfmpeg : Bool) (spawn : SpawnResult) :
    VariantWriters :=
  if useFfmpeg then ⟨createFfmpegWriter spawn, none⟩
  else ⟨none, some ()⟩

/-- Number of frames appended to this variant's output by one call to
`write_video_frames` with a non-`None` frame for the variant: the FFmpeg
branch writes only when the FFmpeg process handle is truthy, the OpenCV
branch only when the writer object is truthy. -/
def framesAppendedOnWrite (useFfmpeg : Bool) (w : VariantWriters)
    (framePresent : Bool) : Nat :=
  if useFfmpeg then
    if w.ffmpegProc.isSome && framePresent then 1 else 0
  else
    if w.cvWriter.isSome && framePresent then 1 else 0

/-! ### Frame callback control flow (`ui/components/sessions.py::Processor.recv`) -/

/-- The inputs of one `Processor.recv` call that decide its effects
(after `_ensure_session` has started the session). -/
structure RecvInput where
  paused : Bool          -- st.session_state["paused"]
  landmarksFound : Bool  -- results.pose_landmarks truthy
  jointDataPresent : Bool  -- _extract_joint_data returned a dict
  generateLegacy : Bool
deriving DecidableEq, Repr

/-- The observable effects of one `Processor.recv` call. -/
structure RecvEffects where
  metricsRecorded : Bool   -- record_frame_data was invoked
  videoWritten : Bool      -- write_video_frames was invoked
  frameIdxInc : Nat        -- increment applied to self.frame_idx
deriving DecidableEq, Repr

/-- Control flow of `Processor.recv`: `record_frame_data` runs only on the
legacy path with landmarks and joint data and **not paused**;
`write_video_frames` (and the `frame_idx` increment) runs only when
**not paused**. -/
def recvEffects (inp : RecvInput) : RecvEffects :=
  let metrics := inp.generateLegacy && inp.landmarksFound && inp.jointDataPresent
    && !inp.paused
  let video := !inp.paused
  ⟨metrics, video, if video then 1 else 0⟩

/-! ### Metric-name map of `_extract_joint_data` -/

/-- The keys of the `joint_data` dict built by
`ui/components/sessions.py::_extract_joint_data`, in construction order. -/
def jointDataKeys : List String :=
  ["shoulder_x_r", "shoulder_y_r", "elbow_x_r", "elbow_y_r",
   "wrist_x_r", "wrist_y_r", "angle_arm_r",
   "shoulder_x_l", "shoulder_y_l", "elbow_x_l", "elbow_y_l",
   "wrist_x_l", "wrist_y_l", "angle_arm_l",
   "hip_x_r", "hip_y_r", "knee_x_r", "knee_y_r",
   "ankle_x_r", "ankle_y_r", "angle_leg_r",
   "hip_x_l", "hip_y_l", "knee_x_l", "knee_y_l",
   "ankle_x_l", "ankle_y_l", "angle_leg_l",
   "heel_x_r", "heel_y_r", "foot_index_x_r", "foot_index_y_r",
   "heel_x_l", "heel_y_l", "foot_index_x_l", "foot_index_y_l",
   "symmetry_angle_arm", "symmetry_angle_leg",
   "symmetry_shoulder_y", "symmetry_elbow_y", "symmetry_knee_y"]

/-- Unit classification as the spec words it: a symmetry metric whose name
has the `_y` **suffix** is positional (pixel unit); every other metric is
angular (degree unit). Stated for comparison with `unitFor`, which is the
source's substring test. -/
def specUnitFor (name : String) : String :=
  if strContains name "symmetry" && endsWithChars "_y".toList name.toList then
    "pixels"
  else "degrees"

/-! ### Helper lemmas -/

lemma should_record_frame_metricRecords (st : SessionState) (e : ℚ) :
    (should_record_frame st e).2.metricRecords = st.metricRecords := by
  unfold should_record_frame
  split_ifs <;> rfl

lemma mem_getSeries_recAppend_self (recs : MetricRecords) (k : String) (v : PF) :
    v ∈ getSeries (recAppend recs k v) k := by
  induction recs with
  | nil => simp [recAppend, getSeries]
  | cons p rest ih =>
      obtain ⟨k', vs⟩ := p
      by_cases h : k' = k
      · subst h
        simp [recAppend, getSeries]
      · simp [recAppend, getSeries, h, ih]

lemma mem_getSeries_recAppend_of_mem (recs : MetricRecords) (k k' : String)
    (v w : PF) (hw : w ∈ getSeries recs k') :
    w ∈ getSeries (recAppend recs k v) k' := by
  induction recs with
  | nil => simp [getSeries] at hw
  | cons p rest ih =>
      obtain ⟨a, vs⟩ := p
      by_cases ha : a = k
      · subst ha
        by_cases ha' : a = k'
        · subst ha'
          simp [getSeries] at hw
          simp [recAppend, getSeries]
          exact Or.inl hw
        · simp [getSeries, ha'] at hw
          simp [recAppend, getSeries, ha']
          exact hw
      · by_cases ha' : a = k'
        · subst ha'
          simp [getSeries] at hw
          simp [recAppend, ha, getSeries]
          exact hw
        · simp [getSeries, ha'] at hw
          simp [recAppend, ha, getSeries, ha']
          exact ih hw

lemma mem_getSeries_recAppend (recs : MetricRecords) (k k' : String) (v w : PF)
    (hw : w ∈ getSeries (recAppend recs k v) k') :
    w = v ∨ w ∈ getSeries recs k' := by
  induction recs with
  | nil =>
      by_cases h : k = k'
      · subst h
        simp [recAppend, getSeries] at hw
        exact Or.inl hw
      · simp [recAppend, getSeries, h] at hw
  | cons p rest ih =>
      obtain ⟨a, vs⟩ := p
      by_cases ha : a = k
      · subst ha
        by_cases ha' : a = k'
        · subst ha'
          simp [recAppend, getSeries] at hw
          rcases hw with hw | hw
          · exact Or.inr (by simp [getSeries, hw])
          · exact Or.inl hw
        · simp [recAppend, getSeries, ha'] at hw
          exact Or.inr (by simp [getSeries, ha', hw])
      · by_cases ha' : a = k'
        · subst ha'
          simp [recAppend, ha, getSeries] at hw
          exact Or.inr (by simp [getSeries, hw])
        · simp [recAppend, ha, getSeries, ha'] at hw
          rcases ih hw with h | h
          · exact Or.inl h
          · exact Or.inr (by simp [getSeries, ha', h])

lemma mem_getSeries_accumulateStep_of_mem (recs : MetricRecords)
    (kv : String × Option PF) (k : String) (w : PF)
    (hw : w ∈ getSeries recs k) :
    w ∈ getSeries (accumulateStep recs kv) k := by
  unfold accumulateStep
  obtain ⟨key, val⟩ := kv
  cases val with
  | none => exact hw
  | some v =>
      by_cases h : (isMetricKey key && !v.isNaN) = true
      · simp only [h, if_true]
        exact mem_getSeries_recAppend_of_mem recs key k v w hw
      · simp only [h, if_false]
        exact hw

lemma mem_getSeries_accumulate_of_mem (joints : List (String × Option PF))
    (recs : MetricRecords) (k : String) (w : PF)
    (hw : w ∈ getSeries recs k) :
    w ∈ getSeries (accumulateMetrics recs joints) k := by
  induction joints generalizing recs with
  | nil => exact hw
  | cons kv rest ih =>
      exact ih (accumulateStep recs kv)
        (mem_getSeries_accumulateStep_of_mem recs kv k w hw)

lemma accumulate_mem (joints : List (String × Option PF)) (recs : MetricRecords)
    (k : String) (v : PF) (hmem : (k, some v) ∈ joints)
    (hk : isMetricKey k = true) (hn : v.isNaN = false) :
    v ∈ getSeries (accumulateMetrics recs joints) k := by
  induction joints generalizing recs with
  | nil => simp at hmem
  | cons kv rest ih =>
      rcases List.mem_cons.mp hmem with h | h
      · subst h
        have hstep : accumulateStep recs (k, some v) = recAppend recs k v := by
          simp [accumulateStep, hk, hn]
        show v ∈ getSeries (accumulateMetrics (accumulateStep recs (k, some v)) rest) k
        rw [hstep]
        exact mem_getSeries_accumulate_of_mem rest _ k v
          (mem_getSeries_recAppend_self recs k v)
      · exact ih (accumulateStep recs kv) h

lemma accumulateStep_noNaN (recs : MetricRecords) (kv : String × Option PF)
    (hinv : ∀ k x, x ∈ getSeries recs k → x.isNaN = false) :
    ∀ k x, x ∈ getSeries (accumulateStep recs kv) k → x.isNaN = false := by
  intro k x hx
  unfold accumulateStep at hx
  obtain ⟨key, val⟩ := kv
  cases val with
  | none => exact hinv k x hx
  | some v =>
      by_cases h : (isMetricKey key && !v.isNaN) = true
      · simp only [h, if_true] at hx
        rcases mem_getSeries_recAppend recs key k v x hx with hxe | hxm
        · subst hxe
          have := (Bool.and_eq_true _ _).mp h
          simpa using this.2
        · exact hinv k x hxm
      · simp only [h, if_false] at hx
        exact hinv k x hx

lemma accumulate_noNaN (joints : List (String × Option PF)) (recs : MetricRecords)
    (hinv : ∀ k x, x ∈ getSeries recs k → x.isNaN = false) :
    ∀ k x, x ∈ getSeries (accumulateMetrics recs joints) k → x.isNaN = false := by
  induction joints generalizing recs with
  | nil => exact hinv
  | cons kv rest ih =>
      exact ih (accumulateStep recs kv) (accumulateStep_noNaN recs kv hinv)

/-! ### Claim theorems -/

/-- C1 (amended). The frame sampler: with `samplingIntervalSeconds ≤ 0`
every call returns true and leaves the state unchanged. With interval
`T > 0`, a call at elapsed time `e` returns true and sets
`lastSampleTime := e` exactly when `e - lastSampleTime ≥ T`, and returns
false with the state unchanged otherwise; consequently the first call of a
session (where `lastSampleTime = 0`) returns true only when its elapsed
time already reaches `T`, and after any call that returned true at elapsed
`e`, a second call spaced `d < T` later returns false while one spaced
`d ≥ T` later returns true. -/
theorem frame_sampler_spec (st : SessionState) (e : ℚ) :
    (st.samplingRate ≤ 0 → should_record_frame st e = (true, st)) ∧
    (0 < st.samplingRate →
      (st.samplingRate ≤ e - st.lastSampleTime →
        should_record_frame st e = (true, { st with lastSampleTime := e })) ∧
      (e - st.lastSampleTime < st.samplingRate →
        should_record_frame st e = (false, st)) ∧
      (st.samplingRate ≤ e - st.lastSampleTime → ∀ d : ℚ,
        (d < st.samplingRate →
          (should_record_frame (should_record_frame st e).2 (e + d)).1 = false) ∧
        (st.samplingRate ≤ d →
          (should_record_frame (should_record_frame st e).2 (e + d)).1 = true))) := by
  constructor
  · intro h
    simp [should_record_frame, h]
  · intro hpos
    have hns : ¬ st.samplingRate ≤ 0 := not_le.mpr hpos
    refine ⟨?_, ?_, ?_⟩
    · intro h
      simp [should_record_frame, hns, h]
    · intro h
      simp [should_record_frame, hns, not_le.mpr h]
    · intro h d
      have h1 : should_record_frame st e = (true, { st with lastSampleTime := e }) := by
        simp [should_record_frame, hns, h]
      constructor
      · intro hd
        rw [h1]
        simp [should_record_frame, hns, not_le.mpr hd]
      · intro hd
        rw [h1]
        simp [should_record_frame, hns, hd]

/-- Witness for C1: with `sampling_rate = 0` a call always returns true. -/
theorem frame_sampler_spec_witness :
    should_record_frame ⟨0, 0, none, [], 0⟩ 5 = (true, ⟨0, 0, none, [], 0⟩) :=
  (frame_sampler_spec ⟨0, 0, none, [], 0⟩ 5).1 le_rfl

/-- Counterexample for C1 as stated: with interval `T = 1` and
`lastSampleTime = 0` (the value set by `__init__`), the first call of the
session at elapsed time `1/2 < T` returns **false**, contradicting
"the first call of a session returns true". -/
theorem frame_sampler_first_call_cex :
    (should_record_frame ⟨1, 0, none, [], 0⟩ (1/2)).1 = false := by
  norm_num [should_record_frame]

/-- C2. Once the session is started, `record_frame_data` feeds the frame's
metric map into the accumulator identically in both sampler branches: the
resulting `metric_records` equal `_accumulate_metrics` applied to the prior
records — regardless of the sampler's persistence decision and of whether
the storage insert succeeds — and every angle/symmetry metric entry of the
frame whose value is present and not NaN ends up in its metric's series. -/
theorem record_frame_feeds_accumulator (st : SessionState) (sid : Nat)
    (fi : ℤ) (eArg eNow : ℚ) (joints : List (String × Option PF)) (dbOk : Bool)
    (hsid : st.sessionId = some sid) :
    (record_frame_data st fi eArg eNow joints dbOk).2.1.metricRecords
        = accumulateMetrics st.metricRecords joints ∧
    ∀ k v, (k, some v) ∈ joints → isMetricKey k = true → v.isNaN = false →
      v ∈ getSeries (record_frame_data st fi eArg eNow joints dbOk).2.1.metricRecords k := by
  have hrecs :
      (record_frame_data st fi eArg eNow joints dbOk).2.1.metricRecords
        = accumulateMetrics st.metricRecords joints := by
    unfold record_frame_data
    rw [hsid]
    by_cases hs : (should_record_frame st eNow).1
    · simp only [hs, Bool.not_true, Bool.false_eq_true, if_false]
      cases dbOk <;>
        simp [should_record_frame_metricRecords]
    · simp only [Bool.not_eq_true] at hs
      simp [hs, should_record_frame_metricRecords]
  refine ⟨hrecs, ?_⟩
  intro k v hmem hk hn
  rw [hrecs]
  exact accumulate_mem joints st.metricRecords k v hmem hk hn

/-- Witness for C2: a started session accumulates a concrete clean angle
value whether or not it is persisted. -/
theorem record_frame_feeds_accumulator_witness :
    (record_frame_data ⟨0, 0, some 1, [], 0⟩ 0 0 0
        [("angle_arm_r", some (PF.fin 90))] true).2.1.metricRecords
      = accumulateMetrics [] [("angle_arm_r", some (PF.fin 90))] ∧
    PF.fin 90 ∈ getSeries (record_frame_data ⟨0, 0, some 1, [], 0⟩ 0 0 0
        [("angle_arm_r", some (PF.fin 90))] true).2.1.metricRecords "angle_arm_r" :=
  ⟨(record_frame_feeds_accumulator ⟨0, 0, some 1, [], 0⟩ 1 0 0 0
      [("angle_arm_r", some (PF.fin 90))] true rfl).1,
   (record_frame_feeds_accumulator ⟨0, 0, some 1, [], 0⟩ 1 0 0 0
      [("angle_arm_r", some (PF.fin 90))] true rfl).2
      "angle_arm_r" (PF.fin 90) (by decide) (by decide) (by decide)⟩

/-- C3 (amended). NaN handling of the accumulator and the aggregation: a
NaN metric value is discarded before accumulation, so no metric series ever
stores a NaN; a metric name whose stored series contains no non-NaN value
is omitted entirely from the aggregation output. Infinite values, however,
are **not** discarded: an angle/symmetry entry carrying `+inf` is appended
to its series like any clean value (see the counterexample for how they
then reach the aggregation). -/
theorem metric_accumulator_nan_policy :
    (∀ (recs : MetricRecords) (joints : List (String × Option PF)),
      (∀ k x, x ∈ getSeries recs k → x.isNaN = false) →
      ∀ k x, x ∈ getSeries (accumulateMetrics recs joints) k → x.isNaN = false) ∧
    (∀ (ok : String → Bool) (sid : Nat) (name : String) (values : List PF),
      cleanVals values = [] → metricGroupRows ok sid name values = []) ∧
    (∀ (recs : MetricRecords) (k : String), isMetricKey k = true →
      PF.pinf ∈ getSeries (accumulateMetrics recs [(k, some PF.pinf)]) k) := by
  refine ⟨?_, ?_, ?_⟩
  · intro recs joints hinv
    exact accumulate_noNaN joints recs hinv
  · intro ok sid name values hclean
    unfold metricGroupRows
    by_cases hv : values = []
    · simp [hv]
    · simp [hv, hclean]
  · intro recs k hk
    exact accumulate_mem [(k, some PF.pinf)] recs k PF.pinf (by simp) hk rfl

/-- Witness for C3: a series holding only a NaN sample is omitted from the
aggregation output. -/
theorem metric_accumulator_nan_policy_witness :
    metricGroupRows (fun _ => true) 1 "angle_arm_l" [PF.nan] = [] :=
  metric_accumulator_nan_policy.2.1 (fun _ => true) 1 "angle_arm_l" [PF.nan] (by decide)

/-- Counterexample for C3 as stated: the code filters only `math.isnan`, so
an infinite metric value is stored in the series and aggregated — the
`+inf`-only series of `angle_x` is not omitted; its max/min rows carry
`+inf` and its range row even carries `inf - inf = NaN`. -/
theorem metric_accumulator_inf_cex :
    accumulateMetrics [] [("angle_x", some PF.pinf)] = [("angle_x", [PF.pinf])] ∧
    metricGroupRows (fun _ => true) 1 "angle_x" [PF.pinf] =
      [StorageCall.addMetric 1 "angle_x_max" PF.pinf "degrees",
       StorageCall.addMetric 1 "angle_x_min" PF.pinf "degrees",
       StorageCall.addMetric 1 "angle_x_range" PF.nan "degrees"] := by
  decide

/-- C6 (amended). Persistence-failure isolation at session close is per
metric **name**, not per statistic: the rows persisted for one metric name
depend only on the storage outcomes of that name's own three rows, and the
aggregation loop always continues with the remaining metric names — but
within one name the three `add_metric` calls share a single `try` block,
so a failure on one statistic skips the remaining statistics of that name
(see the counterexample). -/
theorem close_failure_isolated_per_metric :
    (∀ (ok okAlt : String → Bool) (sid : Nat) (name : String) (values : List PF),
      ok (name ++ "_max") = okAlt (name ++ "_max") →
      ok (name ++ "_min") = okAlt (name ++ "_min") →
      ok (name ++ "_range") = okAlt (name ++ "_range") →
      metricGroupRows ok sid name values = metricGroupRows okAlt sid name values) ∧
    (∀ (ok : String → Bool) (sid : Nat) (name : String) (values : List PF)
        (rest : MetricRecords),
      closeMetrics ok sid ((name, values) :: rest)
        = metricGroupRows ok sid name values ++ closeMetrics ok sid rest) := by
  constructor
  · intro ok okAlt sid name values h1 h2 h3
    unfold metricGroupRows
    rw [h1, h2, h3]
  · intro ok sid name values rest
    rfl

/-- Witness for C6: a metric's persisted rows are unchanged when the
storage behaviour changes only outside that metric's three rows. -/
theorem close_failure_isolated_per_metric_witness :
    metricGroupRows (fun _ => true) 1 "angle_leg_r" [PF.fin 3]
      = metricGroupRows
          (fun r => r == "angle_leg_r_max" || r == "angle_leg_r_min"
            || r == "angle_leg_r_range") 1 "angle_leg_r" [PF.fin 3] :=
  close_failure_isolated_per_metric.1 (fun _ => true)
    (fun r => r == "angle_leg_r_max" || r == "angle_leg_r_min"
      || r == "angle_leg_r_range") 1 "angle_leg_r" [PF.fin 3]
    (by decide) (by decide) (by decide)

/-- Counterexample for C6 as stated: with storage failing exactly on
`a_min`, only `a_max` is persisted — `a_range` is skipped even though its
own persist call would have succeeded, so a failure on one statistic does
prevent persisting another statistic of the same metric. -/
theorem close_per_statistic_cex :
    closeMetrics (fun r => r != "a_min") 1 [("a", [PF.fin 1, PF.fin 2])]
      = [StorageCall.addMetric 1 "a_max" (PF.fin 2) "degrees"] ∧
    (fun r => r != "a_min") "a_range" = true := by
  constructor
  · decide
  · decide

/-- C10. Calling `record_frame_data` before the session is started
(`session_id is None`) raises `RuntimeError` right away: the outcome is the
error, the whole state — in particular the metric accumulator — is
unchanged, and no storage call is made. -/
theorem record_before_start_raises (st : SessionState) (fi : ℤ)
    (eArg eNow : ℚ) (joints : List (String × Option PF)) (dbOk : Bool)
    (hsid : st.sessionId = none) :
    record_frame_data st fi eArg eNow joints dbOk = (Except.error (), st, []) := by
  unfold record_frame_data
  rw [hsid]

/-- Witness for C10 at a concrete unstarted session. -/
theorem record_before_start_raises_witness :
    record_frame_data ⟨1, 0, none, [("a", [PF.fin 2])], 0⟩ 7 3 3
        [("angle_arm_r", some (PF.fin 90))] true
      = (Except.error (), ⟨1, 0, none, [("a", [PF.fin 2])], 0⟩, []) :=
  record_before_start_raises ⟨1, 0, none, [("a", [PF.fin 2])], 0⟩ 7 3 3
    [("angle_arm_r", some (PF.fin 90))] true rfl

/-- C4, evaluated at the failing input (the claim is right, the code has a
bug): with `use_ffmpeg=True` and the encoder binary missing, the spawn
failure leaves the variant with **no** FFmpeg process and **no** OpenCV
writer — `_create_ffmpeg_writer` logs "usando OpenCV VideoWriter" but
`start_session` only constructs OpenCV writers in the `use_ffmpeg=False`
branch — so `write_video_frames` appends nothing for the variant; the
OpenCV backend (third conjunct) would have recorded the frame. -/
theorem ffmpeg_spawn_failure_drops_variant :
    startVariantWriters true SpawnResult.binaryMissing = ⟨none, none⟩ ∧
    (∀ framePresent : Bool,
      framesAppendedOnWrite true (startVariantWriters true SpawnResult.binaryMissing)
        framePresent = 0) ∧
    framesAppendedOnWrite false (startVariantWriters false SpawnResult.binaryMissing)
      true = 1 := by
  decide

/-- C5 (amended). While the session is paused, the frame callback is a
no-op on *both* metric capture and video encoding: `record_frame_data` is
not invoked, `write_video_frames` is not invoked (so no encoder receives
the frame), and `frame_idx` is not incremented. -/
theorem paused_frame_is_full_noop (inp : RecvInput) (hp : inp.paused = true) :
    recvEffects inp = ⟨false, false, 0⟩ := by
  simp [recvEffects, hp]

/-- Witness for C5 at a concrete paused frame with landmarks present. -/
theorem paused_frame_is_full_noop_witness :
    recvEffects ⟨true, true, false, true⟩ = ⟨false, false, 0⟩ :=
  paused_frame_is_full_noop ⟨true, true, false, true⟩ rfl

/-- Counterexample for C5 as stated: a paused frame with complete landmarks
produces no video write at all (`videoWritten = false`), contradicting
"the frame's video is still encoded". -/
theorem paused_still_encodes_cex :
    recvEffects ⟨true, true, true, true⟩ = ⟨false, false, 0⟩ := by
  decide

/-- C9. Unit classification at aggregation: on every metric name the
pipeline feeds into the accumulator (the angle/symmetry keys of
`_extract_joint_data`), the source's substring test agrees with the spec's
suffix rule — positional `*_y` symmetry metrics get the pixel unit and all
others the degree unit; every aggregated row of a metric carries that
metric's unit; end-to-end, `symmetry_knee_y` statistics are persisted with
`"pixels"` and `angle_arm_r` statistics with `"degrees"`. -/
theorem aggregation_unit_classification :
    (jointDataKeys.filter isMetricKey).all
        (fun n => unitFor n == specUnitFor n) = true ∧
    (∀ (ok : String → Bool) (sid : Nat) (name : String) (values : List PF),
      (metricGroupRows ok sid name values).all
        (fun r => match r with
          | StorageCall.addMetric _ _ _ u => u == unitFor name
          | _ => false) = true) ∧
    metricGroupRows (fun _ => true) 7 "symmetry_knee_y" [PF.fin 5, PF.fin 9]
      = [StorageCall.addMetric 7 "symmetry_knee_y_max" (PF.fin 9) "pixels",
         StorageCall.addMetric 7 "symmetry_knee_y_min" (PF.fin 5) "pixels",
         StorageCall.addMetric 7 "symmetry_knee_y_range" (PF.fin 4) "pixels"] ∧
    metricGroupRows (fun _ => true) 7 "angle_arm_r"
        [PF.fin 10, PF.fin 20, PF.fin 15]
      = [StorageCall.addMetric 7 "angle_arm_r_max" (PF.fin 20) "degrees",
         StorageCall.addMetric 7 "angle_arm_r_min" (PF.fin 10) "degrees",
         StorageCall.addMetric 7 "angle_arm_r_range" (PF.fin 10) "degrees"] := by
  refine ⟨by decide, ?_, ?_, ?_⟩
  · intro ok sid name values
    unfold metricGroupRows
    by_cases h1 : values = []
    · simp [h1]
    · by_cases h2 : cleanVals values = []
      · simp [h1, h2]
      · by_cases h3 : ok (name ++ "_max")
        · by_cases h4 : ok (name ++ "_min") <;> by_cases h5 : ok (name ++ "_range") <;>
            simp [h1, h2, h3, h4, h5]
        · simp [h1, h2, h3]
  · norm_num [metricGroupRows, cleanVals, maxPF, minPF, PF.sub, PF.lt, PF.isNaN]
    decide
  · norm_num [metricGroupRows, cleanVals, maxPF, minPF, PF.sub, PF.lt, PF.isNaN]
    decide

/-! ### Helper lemmas for the angle calculator -/

lemma calculate_angle_def (pa pb pc : Pt) :
    calculate_angle (some pa) (some pb) (some pc)
      = if (pa.hasNaN || pb.hasNaN || pc.hasNaN) = true then none
        else if normR (vsub pa pb) = 0 ∨ normR (vsub pc pb) = 0 then none
        else safe_round (some |angleFromCos
          ((dotQ (vsub pa pb) (vsub pc pb) : ℝ) /
            (normR (vsub pa pb) * normR (vsub pc pb)))|) := rfl

lemma sq_sumR_eq_zero_iff (u : ℚ × ℚ) :
    ((u.1 : ℝ) ^ 2 + (u.2 : ℝ) ^ 2 = 0) ↔ u = (0, 0) := by
  obtain ⟨x, y⟩ := u
  constructor
  · intro h
    have hx2 : ((x : ℝ)) ^ 2 = 0 := by nlinarith [sq_nonneg (x : ℝ), sq_nonneg (y : ℝ)]
    have hy2 : ((y : ℝ)) ^ 2 = 0 := by nlinarith [sq_nonneg (x : ℝ), sq_nonneg (y : ℝ)]
    have hx : x = 0 := by exact_mod_cast sq_eq_zero_iff.mp hx2
    have hy : y = 0 := by exact_mod_cast sq_eq_zero_iff.mp hy2
    simp [hx, hy]
  · rintro h
    rw [Prod.mk.injEq] at h
    simp [h.1, h.2]

lemma sq_sum_pos (u : ℚ × ℚ) (hu : u ≠ (0, 0)) :
    0 < (u.1 : ℝ) ^ 2 + (u.2 : ℝ) ^ 2 :=
  lt_of_le_of_ne (by positivity)
    (fun h => hu ((sq_sumR_eq_zero_iff u).mp h.symm))

lemma normR_eq_zero_iff (u : ℚ × ℚ) : normR u = 0 ↔ u = (0, 0) := by
  unfold normR
  rw [Real.sqrt_eq_zero (by positivity)]
  exact sq_sumR_eq_zero_iff u

lemma clip_one : clip 1 = 1 := by
  unfold clip
  norm_num

lemma clip_neg_one : clip (-1) = -1 := by
  unfold clip
  norm_num

lemma angleFromCos_nonneg (x : ℝ) : 0 ≤ angleFromCos x := by
  unfold angleFromCos
  have h1 := Real.arccos_nonneg (clip x)
  have h2 := Real.pi_pos
  positivity

lemma angleFromCos_le_180 (x : ℝ) : angleFromCos x ≤ 180 := by
  unfold angleFromCos
  rw [div_le_iff₀ Real.pi_pos]
  have h := Real.arccos_le_pi (clip x)
  nlinarith [Real.pi_pos]

lemma angleFromCos_one : angleFromCos 1 = 0 := by
  unfold angleFromCos
  rw [clip_one, Real.arccos_one]
  ring

lemma angleFromCos_neg_one : angleFromCos (-1) = 180 := by
  unfold angleFromCos
  rw [clip_neg_one, Real.arccos_neg_one, mul_comm, mul_div_assoc,
    div_self Real.pi_ne_zero, mul_one]

lemma roundTo2_nonneg {x : ℝ} (h : 0 ≤ x) : 0 ≤ roundTo2 x := by
  unfold roundTo2
  have h0 : (0 : ℤ) ≤ round (x * 100) := by
    have hr : round (0 : ℝ) ≤ round (x * 100) := by
      rw [round_eq, round_eq]
      exact Int.floor_mono (by linarith)
    simpa using hr
  have : (0 : ℝ) ≤ ((round (x * 100) : ℤ) : ℝ) := by exact_mod_cast h0
  linarith

lemma roundTo2_le_180 {x : ℝ} (h : x ≤ 180) : roundTo2 x ≤ 180 := by
  unfold roundTo2
  have h0 : round (x * 100) ≤ (18000 : ℤ) := by
    have hr : round (x * 100) ≤ round (((18000 : ℤ) : ℝ)) := by
      rw [round_eq, round_eq]
      exact Int.floor_mono (by push_cast; linarith)
    simpa [round_intCast] using hr
  rw [div_le_iff₀ (by norm_num : (0 : ℝ) < 100)]
  have : ((round (x * 100) : ℤ) : ℝ) ≤ ((18000 : ℤ) : ℝ) := by exact_mod_cast h0
  norm_num at this ⊢
  linarith

lemma roundTo2_zero : roundTo2 0 = 0 := by
  unfold roundTo2
  norm_num

lemma roundTo2_180 : roundTo2 180 = 180 := by
  unfold roundTo2
  rw [show (180 : ℝ) * 100 = ((18000 : ℤ) : ℝ) by norm_num, round_intCast]
  norm_num

lemma dotQ_comm (u v : ℚ × ℚ) : dotQ u v = dotQ v u := by
  unfold dotQ
  ring

lemma normR_smul (r x y : ℚ) :
    normR (r * x, r * y) = |(r : ℝ)| * normR (x, y) := by
  unfold normR
  rw [show (((r * x : ℚ) : ℝ)) ^ 2 + (((r * y : ℚ) : ℝ)) ^ 2
      = (r : ℝ) ^ 2 * (((x : ℚ) : ℝ) ^ 2 + ((y : ℚ) : ℝ) ^ 2) by push_cast; ring]
  rw [Real.sqrt_mul (sq_nonneg _), Real.sqrt_sq_eq_abs]

/-- Evaluation of `calculate_angle` on valid, non-degenerate input. -/
lemma calculate_angle_some (pa pb pc : Pt)
    (hnan : (pa.hasNaN || pb.hasNaN || pc.hasNaN) = false)
    (hba : vsub pa pb ≠ (0, 0)) (hbc : vsub pc pb ≠ (0, 0)) :
    calculate_angle (some pa) (some pb) (some pc)
      = some (roundTo2 |angleFromCos
          ((dotQ (vsub pa pb) (vsub pc pb) : ℝ) /
            (normR (vsub pa pb) * normR (vsub pc pb)))|) := by
  rw [calculate_angle_def]
  rw [if_neg (by simp [hnan])]
  have h2 : ¬(normR (vsub pa pb) = 0 ∨ normR (vsub pc pb) = 0) := by
    rintro (h | h)
    · exact hba ((normR_eq_zero_iff _).mp h)
    · exact hbc ((normR_eq_zero_iff _).mp h)
  rw [if_neg h2]
  rfl

lemma cos_self (u : ℚ × ℚ) (hu : u ≠ (0, 0)) :
    ((dotQ u u : ℚ) : ℝ) / (normR u * normR u) = 1 := by
  have hnn : normR u * normR u = (u.1 : ℝ) ^ 2 + (u.2 : ℝ) ^ 2 := by
    unfold normR
    exact Real.mul_self_sqrt (by positivity)
  have hdot : ((dotQ u u : ℚ) : ℝ) = (u.1 : ℝ) ^ 2 + (u.2 : ℝ) ^ 2 := by
    unfold dotQ
    push_cast
    ring
  rw [hdot, hnn]
  exact div_self (sq_sum_pos u hu).ne'

lemma calculate_angle_eq_zero_of_cos_one (pa pb pc : Pt)
    (hnan : (pa.hasNaN || pb.hasNaN || pc.hasNaN) = false)
    (hba : vsub pa pb ≠ (0, 0)) (hbc : vsub pc pb ≠ (0, 0))
    (hcos : ((dotQ (vsub pa pb) (vsub pc pb) : ℚ) : ℝ) /
        (normR (vsub pa pb) * normR (vsub pc pb)) = 1) :
    calculate_angle (some pa) (some pb) (some pc) = some 0 := by
  rw [calculate_angle_some pa pb pc hnan hba hbc, hcos, angleFromCos_one,
    abs_zero, roundTo2_zero]

lemma calculate_angle_eq_180_of_cos_neg_one (pa pb pc : Pt)
    (hnan : (pa.hasNaN || pb.hasNaN || pc.hasNaN) = false)
    (hba : vsub pa pb ≠ (0, 0)) (hbc : vsub pc pb ≠ (0, 0))
    (hcos : ((dotQ (vsub pa pb) (vsub pc pb) : ℚ) : ℝ) /
        (normR (vsub pa pb) * normR (vsub pc pb)) = -1) :
    calculate_angle (some pa) (some pb) (some pc) = some 180 := by
  rw [calculate_angle_some pa pb pc hnan hba hbc, hcos, angleFromCos_neg_one,
    abs_of_nonneg (by norm_num : (0 : ℝ) ≤ 180), roundTo2_180]

/-- C7. `calculate_angle` is a total (never-throwing) pure function: it
returns `None` whenever an input point is absent, any coordinate is NaN, or
either of the vectors `a-b`, `c-b` has zero length; in every other case it
returns a value in `[0, 180]` that is rounded to 2 decimal places (an
integer multiple of `1/100`). -/
theorem calculate_angle_total_spec :
    (∀ a b c : Option Pt, a = none ∨ b = none ∨ c = none →
      calculate_angle a b c = none) ∧
    (∀ pa pb pc : Pt, (pa.hasNaN || pb.hasNaN || pc.hasNaN) = true →
      calculate_angle (some pa) (some pb) (some pc) = none) ∧
    (∀ pa pb pc : Pt, (pa.hasNaN || pb.hasNaN || pc.hasNaN) = false →
      (vsub pa pb = (0, 0) ∨ vsub pc pb = (0, 0)) →
      calculate_angle (some pa) (some pb) (some pc) = none) ∧
    (∀ pa pb pc : Pt, (pa.hasNaN || pb.hasNaN || pc.hasNaN) = false →
      vsub pa pb ≠ (0, 0) → vsub pc pb ≠ (0, 0) →
      ∃ v : ℝ, calculate_angle (some pa) (some pb) (some pc) = some v ∧
        0 ≤ v ∧ v ≤ 180 ∧ ∃ k : ℤ, v = (k : ℝ) / 100) := by
  refine ⟨?_, ?_, ?_, ?_⟩
  · rintro a b c (rfl | rfl | rfl)
    · cases b <;> cases c <;> rfl
    · cases a <;> cases c <;> rfl
    · cases a <;> cases b <;> rfl
  · intro pa pb pc h
    rw [calculate_angle_def, if_pos h]
  · intro pa pb pc hnan hzero
    rw [calculate_angle_def]
    rw [if_neg (by simp [hnan])]
    have h2 : normR (vsub pa pb) = 0 ∨ normR (vsub pc pb) = 0 := by
      rcases hzero with h | h
      · exact Or.inl ((normR_eq_zero_iff _).mpr h)
      · exact Or.inr ((normR_eq_zero_iff _).mpr h)
    rw [if_pos h2]
  · intro pa pb pc hnan hba hbc
    refine ⟨_, calculate_angle_some pa pb pc hnan hba hbc, ?_, ?_, ⟨_, rfl⟩⟩
    · exact roundTo2_nonneg (abs_nonneg _)
    · apply roundTo2_le_180
      rw [abs_of_nonneg (angleFromCos_nonneg _)]
      exact angleFromCos_le_180 _

/-- Witness for C7: a concrete clean, non-degenerate input produces a
rounded value in `[0, 180]`. -/
theorem calculate_angle_total_spec_witness :
    ∃ v : ℝ, calculate_angle (some (mkPt 2 0)) (some (mkPt 0 0)) (some (mkPt 1 0))
        = some v ∧ 0 ≤ v ∧ v ≤ 180 ∧ ∃ k : ℤ, v = (k : ℝ) / 100 :=
  calculate_angle_total_spec.2.2.2 (mkPt 2 0) (mkPt 0 0) (mkPt 1 0) rfl
    (by norm_num [vsub, mkPt, Coord.q, Prod.ext_iff])
    (by norm_num [vsub, mkPt, Coord.q, Prod.ext_iff])

/-- C8. Algebraic properties of `calculate_angle`: for a non-degenerate
pair `b ≠ a` (finite coordinates), `angle(a, b, a) = 0`; the function is
symmetric in its outer arguments, `angle(a, b, c) = angle(c, b, a)`; and
for collinear points with `b = a + t·(c-a)` strictly between `a` and `c`
(`0 < t < 1`, `a ≠ c`), `angle(a, b, c) = 180`. -/
theorem calculate_angle_algebra :
    (∀ a1 a2 b1 b2 : ℚ, (a1, a2) ≠ (b1, b2) →
      calculate_angle (some (mkPt a1 a2)) (some (mkPt b1 b2)) (some (mkPt a1 a2))
        = some 0) ∧
    (∀ a b c : Option Pt, calculate_angle a b c = calculate_angle c b a) ∧
    (∀ a1 a2 c1 c2 t : ℚ, 0 < t → t < 1 → (a1, a2) ≠ (c1, c2) →
      calculate_angle (some (mkPt a1 a2))
        (some (mkPt (a1 + t * (c1 - a1)) (a2 + t * (c2 - a2))))
        (some (mkPt c1 c2)) = some 180) := by
  refine ⟨?_, ?_, ?_⟩
  · intro a1 a2 b1 b2 hne
    have hu : vsub (mkPt a1 a2) (mkPt b1 b2) ≠ (0, 0) := by
      show ((a1 - b1, a2 - b2) : ℚ × ℚ) ≠ (0, 0)
      intro h
      rw [Prod.mk.injEq] at h
      exact hne (by
        rw [Prod.mk.injEq]
        exact ⟨by linarith [h.1], by linarith [h.2]⟩)
    exact calculate_angle_eq_zero_of_cos_one _ _ _ rfl hu hu (cos_self _ hu)
  · intro a b c
    cases a with
    | none => cases b <;> cases c <;> rfl
    | some pa =>
      cases b with
      | none => cases c <;> rfl
      | some pb =>
        cases c with
        | none => rfl
        | some pc =>
          rw [calculate_angle_def pa pb pc, calculate_angle_def pc pb pa]
          by_cases h : (pa.hasNaN || pb.hasNaN || pc.hasNaN) = true
          · have hAlt : (pc.hasNaN || pb.hasNaN || pa.hasNaN) = true := by
              simp only [Bool.or_eq_true] at h ⊢
              tauto
            rw [if_pos h, if_pos hAlt]
          · have hAlt : ¬((pc.hasNaN || pb.hasNaN || pa.hasNaN) = true) := by
              simp only [Bool.or_eq_true] at h ⊢
              tauto
            rw [if_neg h, if_neg hAlt]
            by_cases hz : normR (vsub pa pb) = 0 ∨ normR (vsub pc pb) = 0
            · rw [if_pos hz, if_pos hz.symm]
            · rw [if_neg hz, if_neg (fun hz2 => hz hz2.symm)]
              rw [dotQ_comm (vsub pa pb) (vsub pc pb),
                mul_comm (normR (vsub pa pb)) (normR (vsub pc pb))]
  · intro a1 a2 c1 c2 t ht0 ht1 hne
    have hd : ((c1 - a1, c2 - a2) : ℚ × ℚ) ≠ (0, 0) := by
      intro h
      rw [Prod.mk.injEq] at h
      exact hne (by
        rw [Prod.mk.injEq]
        exact ⟨by linarith [h.1], by linarith [h.2]⟩)
    have ht0' : t ≠ 0 := ne_of_gt ht0
    have ht1' : (1 : ℚ) - t ≠ 0 := sub_ne_zero.mpr (ne_of_gt ht1)
    have hba : vsub (mkPt a1 a2) (mkPt (a1 + t * (c1 - a1)) (a2 + t * (c2 - a2)))
        = ((-t) * (c1 - a1), (-t) * (c2 - a2)) := by
      show ((a1 - (a1 + t * (c1 - a1)), a2 - (a2 + t * (c2 - a2))) : ℚ × ℚ) = _
      rw [Prod.mk.injEq]
      constructor <;> ring
    have hbc : vsub (mkPt c1 c2) (mkPt (a1 + t * (c1 - a1)) (a2 + t * (c2 - a2)))
        = ((1 - t) * (c1 - a1), (1 - t) * (c2 - a2)) := by
      show ((c1 - (a1 + t * (c1 - a1)), c2 - (a2 + t * (c2 - a2))) : ℚ × ℚ) = _
      rw [Prod.mk.injEq]
      constructor <;> ring
    have hcomp : ∀ r : ℚ, r ≠ 0 →
        ((r * (c1 - a1), r * (c2 - a2)) : ℚ × ℚ) ≠ (0, 0) := by
      intro r hr h
      rw [Prod.mk.injEq] at h
      apply hd
      rw [Prod.mk.injEq]
      constructor
      · rcases mul_eq_zero.mp h.1 with h' | h'
        · exact absurd h' hr
        · exact h'
      · rcases mul_eq_zero.mp h.2 with h' | h'
        · exact absurd h' hr
        · exact h'
    have hba0 : vsub (mkPt a1 a2)
        (mkPt (a1 + t * (c1 - a1)) (a2 + t * (c2 - a2))) ≠ (0, 0) := by
      rw [hba]
      exact hcomp (-t) (neg_ne_zero.mpr ht0')
    have hbc0 : vsub (mkPt c1 c2)
        (mkPt (a1 + t * (c1 - a1)) (a2 + t * (c2 - a2))) ≠ (0, 0) := by
      rw [hbc]
      exact hcomp (1 - t) ht1'
    apply calculate_angle_eq_180_of_cos_neg_one
    case hnan => rfl
    case hba => exact hba0
    case hbc => exact hbc0
    rw [hba, hbc, normR_smul (-t) (c1 - a1) (c2 - a2),
      normR_smul (1 - t) (c1 - a1) (c2 - a2)]
    have ht0R : (0 : ℝ) < (t : ℚ) := by exact_mod_cast ht0
    have ht1R : (0 : ℝ) < 1 - ((t : ℚ) : ℝ) := by
      have : ((t : ℚ) : ℝ) < 1 := by exact_mod_cast ht1
      linarith
    have habs1 : |((-t : ℚ) : ℝ)| = ((t : ℚ) : ℝ) := by
      push_cast
      rw [abs_neg, abs_of_pos ht0R]
    have habs2 : |((1 - t : ℚ) : ℝ)| = 1 - ((t : ℚ) : ℝ) := by
      push_cast
      rw [abs_of_pos (by linarith)]
    rw [habs1, habs2]
    have hs : (0 : ℝ) < ((c1 - a1 : ℚ) : ℝ) ^ 2 + ((c2 - a2 : ℚ) : ℝ) ^ 2 :=
      sq_sum_pos (c1 - a1, c2 - a2) hd
    have hdot : ((dotQ ((-t) * (c1 - a1), (-t) * (c2 - a2))
          ((1 - t) * (c1 - a1), (1 - t) * (c2 - a2)) : ℚ) : ℝ)
        = -(((t : ℚ) : ℝ) * (1 - ((t : ℚ) : ℝ))
            * (((c1 - a1 : ℚ) : ℝ) ^ 2 + ((c2 - a2 : ℚ) : ℝ) ^ 2)) := by
      unfold dotQ
      push_cast
      ring
    have hnn : normR (c1 - a1, c2 - a2) * normR (c1 - a1, c2 - a2)
        = ((c1 - a1 : ℚ) : ℝ) ^ 2 + ((c2 - a2 : ℚ) : ℝ) ^ 2 := by
      unfold normR
      exact Real.mul_self_sqrt (by positivity)
    have hden : ((t : ℚ) : ℝ) * normR (c1 - a1, c2 - a2)
          * ((1 - ((t : ℚ) : ℝ)) * normR (c1 - a1, c2 - a2))
        = ((t : ℚ) : ℝ) * (1 - ((t : ℚ) : ℝ))
            * (((c1 - a1 : ℚ) : ℝ) ^ 2 + ((c2 - a2 : ℚ) : ℝ) ^ 2) := by
      calc ((t : ℚ) : ℝ) * normR (c1 - a1, c2 - a2)
            * ((1 - ((t : ℚ) : ℝ)) * normR (c1 - a1, c2 - a2))
          = ((t : ℚ) : ℝ) * (1 - ((t : ℚ) : ℝ))
              * (normR (c1 - a1, c2 - a2) * normR (c1 - a1, c2 - a2)) := by ring
        _ = ((t : ℚ) : ℝ) * (1 - ((t : ℚ) : ℝ))
              * (((c1 - a1 : ℚ) : ℝ) ^ 2 + ((c2 - a2 : ℚ) : ℝ) ^ 2) := by rw [hnn]
    have hP : (0 : ℝ) < ((t : ℚ) : ℝ) * (1 - ((t : ℚ) : ℝ))
        * (((c1 - a1 : ℚ) : ℝ) ^ 2 + ((c2 - a2 : ℚ) : ℝ) ^ 2) :=
      mul_pos (mul_pos ht0R ht1R) hs
    rw [hdot, hden, neg_div, div_self hP.ne']

/-- Witness for C8: the collinear midpoint of `(0,0)` and `(2,0)` gives a
straight angle of 180 degrees. -/
theorem calculate_angle_algebra_witness :
    calculate_angle (some (mkPt 0 0))
        (some (mkPt (0 + (1/2) * (2 - 0)) (0 + (1/2) * (0 - 0))))
        (some (mkPt 2 0)) = some 180 :=
  calculate_angle_algebra.2.2 0 0 2 0 (1/2) (by norm_num) (by norm_num)
    (by norm_num [Prod.ext_iff])

end ReconAI
